import Mathlib

/-!
Shallow embedding of the async-ssh coordination layer (src/channel.rs,
src/session/state.rs, src/session/mod.rs, src/lib.rs).

Bytes are modelled as `Nat`, wake handles (`futures::task::Task`) as `Nat`
task identifiers, and the thrussh error type `HandlerError<()>` as a `Nat`
error code.  Notifications (`task.notify()` calls) are made observable: each
operation returns, besides the updated state, the list of `(slot, task)`
pairs it notified, in the order the source notifies them.  A Rust `panic`
(`unwrap`/`expect`/slice-out-of-bounds) is modelled by returning `none`.
All operations are stated per channel: the source looks the channel's
`State` up in the session's `state_for` map by channel id and panics when
the entry is absent; here each operation acts on the state of one
registered channel directly.
-/

namespace AsyncSsh

/-- The thrussh `ChannelOpenFailure` reason enum, stored in `open_state`. -/
inductive ChannelOpenFailure
  | administrativelyProhibited
  | connectFailed
  | unknownChannelType
  | resourceShortage
deriving DecidableEq

/-- `Result<(), ChannelOpenFailure>`, the payload of `open_state`. -/
inductive OpenResult
  | ok
  | failed (reason : ChannelOpenFailure)
deriving DecidableEq

/-- The four wake-handle slots a notification can come from: the three
per-channel readiness slots plus the connection driver's own task slot. -/
inductive Slot
  | onData
  | onExit
  | onOpen
  | driver
deriving DecidableEq

/-- Per-channel mutable state: `channel::State` from src/channel.rs.
`read_notify` is the `on_data` slot, `exit_notify` the `on_exit` slot and
`open_notify` the `on_open` slot of the spec. -/
structure State where
  closed : Bool
  read_notify : Option Nat
  data_start : Nat
  data : List Nat
  eof : Bool
  exit_notify : Option Nat
  exit_status : Option Nat
  open_notify : Option Nat
  open_state : Option OpenResult
deriving DecidableEq

/-- `channel::State::default()`. -/
def State.default : State :=
  { closed := false
    read_notify := none
    data_start := 0
    data := []
    eof := false
    exit_notify := none
    exit_status := none
    open_notify := none
    open_state := none }

/-- `if let Some(task) = slot.take() then task.notify()`: the notification
list produced by firing one wake-handle slot. -/
def optWake (X : Slot) (slot : Option Nat) : List (Slot × Nat) :=
  match slot with
  | some t => [(X, t)]
  | none => []

namespace Handler

/-- `Handler::channel_open_confirmation` (src/session/state.rs): set
`open_state = Some(Ok(()))`, take and notify `open_notify`. -/
def channel_open_confirmation (st : State) : State × List (Slot × Nat) :=
  ({ st with open_state := some .ok, open_notify := none },
   optWake .onOpen st.open_notify)

/-- `Handler::channel_open_failure`: set `open_state = Some(Err(reason))`,
take and notify `open_notify`. -/
def channel_open_failure (reason : ChannelOpenFailure) (st : State) :
    State × List (Slot × Nat) :=
  ({ st with open_state := some (.failed reason), open_notify := none },
   optWake .onOpen st.open_notify)

/-- `Handler::data`: when `ext.is_none()`, append the payload to `data` and
take and notify `read_notify`; extended-stream data is discarded. -/
def data (ext : Option Nat) (payload : List Nat) (st : State) :
    State × List (Slot × Nat) :=
  if ext.isNone then
    ({ st with data := st.data ++ payload, read_notify := none },
     optWake .onData st.read_notify)
  else (st, [])

/-- `Handler::channel_close`: set `eof = true` and `closed = true`, take and
notify `read_notify` then `exit_notify`. -/
def channel_close (st : State) : State × List (Slot × Nat) :=
  ({ st with eof := true, closed := true, read_notify := none,
             exit_notify := none },
   optWake .onData st.read_notify ++ optWake .onExit st.exit_notify)

/-- `Handler::channel_eof`: set `eof = true`, take and notify `read_notify`. -/
def channel_eof (st : State) : State × List (Slot × Nat) :=
  ({ st with eof := true, read_notify := none },
   optWake .onData st.read_notify)

/-- `Handler::exit_status`: record the code, take and notify `exit_notify`. -/
def exit_status (code : Nat) (st : State) : State × List (Slot × Nat) :=
  ({ st with exit_status := some code, exit_notify := none },
   optWake .onExit st.exit_notify)

end Handler

/-- Result of `<Channel as Read>::read`: `wouldBlock` is the
`ErrorKind::WouldBlock` error, `ok out` is `Ok(out.len())` with `out` the
bytes copied into the caller's buffer (`ok []` is `Ok(0)`, end-of-stream). -/
inductive ReadResult
  | wouldBlock
  | ok (out : List Nat)
deriving DecidableEq

/-- `<Channel as Read>::read` (src/channel.rs): `bufLen` is `buf.len()` and
`task` the current task.  `n = min(buf.len(), data.len() - data_start)`
bytes are copied out of `data` starting at `data_start`, the cursor is
advanced, and the buffer is compacted when fully drained.  The `none`
result models the panic of `data.len() - data_start` / the slice
`data[data_start..data_start + n]` when `data_start > data.len()`. -/
def Channel.read (bufLen task : Nat) (st : State) :
    Option (State × ReadResult) :=
  if st.data_start ≤ st.data.length then
    let n := min bufLen (st.data.length - st.data_start)
    let out := (st.data.drop st.data_start).take n
    let st1 :=
      if st.data_start + n = st.data.length then
        { st with data_start := 0, data := [] }
      else
        { st with data_start := st.data_start + n }
    if n = 0 ∧ st.eof = false then
      some ({ st1 with read_notify := some task }, .wouldBlock)
    else
      some ({ st1 with read_notify := none }, .ok out)
  else none

/-- Result of `<ExitStatusFuture as Future>::poll`: `ready code` is
`Ok(Async::Ready(code))`, `noStatus` is `Err(())` (closed without an exit
status), `notReady` is `Ok(Async::NotReady)`. -/
inductive ExitPoll
  | ready (code : Nat)
  | noStatus
  | notReady
deriving DecidableEq

/-- `<ExitStatusFuture as Future>::poll` (src/channel.rs). -/
def ExitStatusFuture.poll (task : Nat) (st : State) : State × ExitPoll :=
  match st.exit_status with
  | some e => ({ st with exit_notify := none }, .ready e)
  | none =>
    if st.closed then ({ st with exit_notify := none }, .noStatus)
    else ({ st with exit_notify := some task }, .notReady)

/-- The `Connection` record of src/lib.rs, restricted to what this layer
mutates: the driver's stored wake handle `task`, plus the list of `exec`
requests issued on the engine, each `(channel id, want_reply, command)`. -/
structure Connection where
  task : Option Nat
  execs : List (Nat × Bool × String)
deriving DecidableEq

/-- Result of `<ChannelOpenFuture as Future>::poll`. -/
inductive OpenPoll
  | opened (id : Nat)
  | failed (reason : ChannelOpenFailure)
  | notReady
deriving DecidableEq

/-- `<ChannelOpenFuture as Future>::poll` (src/channel.rs) after the
first-round `abort_read` forcing step.  Clears `open_notify`, takes
`open_state`; on `Some(Ok(()))` issues `exec(id, true, cmd)` and notifies
the driver task taken from the connection (`s.task.take().unwrap()` —
`none` models the unwrap panic when no driver task is stored); on
`Some(Err(e))` surfaces the failure; on `None` arms `open_notify`. -/
def ChannelOpenFuture.poll (id : Nat) (cmd : String) (task : Nat)
    (conn : Connection) (st : State) :
    Option (Connection × State × List (Slot × Nat) × OpenPoll) :=
  match st.open_state with
  | some .ok =>
    match conn.task with
    | some t =>
      some ({ task := none, execs := conn.execs ++ [(id, true, cmd)] },
            { st with open_notify := none, open_state := none },
            [(.driver, t)], .opened id)
    | none => none
  | some (.failed e) =>
    some (conn, { st with open_notify := none, open_state := none },
          [], .failed e)
  | none =>
    some (conn, { st with open_notify := some task, open_state := none },
          [], .notReady)

/-- Outcome of the engine's `poll` as seen by the driver:
`Ok(Async::NotReady)`, `Ok(Async::Ready(()))`, or `Err(e)`. -/
inductive EnginePoll
  | pending
  | done
  | err (e : Nat)
deriving DecidableEq

/-- What `<SharableConnection as Future>::poll` returns: `notReady` keeps
the driver task alive, `finished` and `errored` terminate it (`Ok(Ready)`
and `Err(())` respectively). -/
inductive DriverResult
  | notReady
  | finished
  | errored
deriving DecidableEq

/-- The session-wide `Inner` state (src/session/state.rs), restricted to
the `errored_with` slot (`fatal_error` of the spec); the per-channel map is
modelled by the per-channel operations above. -/
structure SessionInner where
  errored_with : Option Nat
deriving DecidableEq

/-- `<SharableConnection as Future>::poll` (src/lib.rs): store the current
task in `conn.task`, then run the engine's `poll`; on `Err(e)` store `e`
into `errored_with` and terminate with `Err(())`.  The last component is
the list of consumers notified by the driver itself: always empty. -/
def SharableConnection.poll (task : Nat) (engine : EnginePoll)
    (conn : Connection) (sess : SessionInner) :
    Connection × SessionInner × DriverResult × List (Slot × Nat) :=
  let conn1 := { conn with task := some task }
  match engine with
  | .pending => (conn1, sess, .notReady, [])
  | .done => (conn1, sess, .finished, [])
  | .err e => (conn1, { errored_with := some e }, .errored, [])

/-- `Session::last_error` (src/session/mod.rs): `errored_with.take()`. -/
def Session.last_error (sess : SessionInner) : SessionInner × Option Nat :=
  ({ errored_with := none }, sess.errored_with)

/-! ### Traces of interleaved engine events and consumer polls

A `Step` is one synchronous access to the shared state of a single
registered channel: either an engine event-handler invocation or one
consumer poll (the engine contract delivers events one at a time, and every
consumer access holds the `RefCell` borrow for its whole body, so a run is
a sequence of whole steps). -/

/-- One engine event or consumer operation on a single channel. -/
inductive Step
  | evOpenConfirm
  | evOpenFail (reason : ChannelOpenFailure)
  | evData (ext : Option Nat) (payload : List Nat)
  | evEof
  | evClose
  | evExit (code : Nat)
  | opRead (bufLen task : Nat)
  | opExitPoll (task : Nat)
  | opOpenPoll (id : Nat) (cmd : String) (task : Nat)
deriving DecidableEq

/-- The state a step acts on: the shared connection plus the channel's
`State`. -/
structure Sys where
  conn : Connection
  chan : State
deriving DecidableEq

/-- Observable output of one step: the notifications it fired and the bytes
a `Channel::read` step returned. -/
structure StepOut where
  notifs : List (Slot × Nat)
  readOut : List Nat
deriving DecidableEq

/-- Run one step; `none` models a panic inside the step. -/
def stepRun (s : Sys) : Step → Option (Sys × StepOut)
  | .evOpenConfirm =>
    let r := Handler.channel_open_confirmation s.chan
    some ({ s with chan := r.1 }, ⟨r.2, []⟩)
  | .evOpenFail reason =>
    let r := Handler.channel_open_failure reason s.chan
    some ({ s with chan := r.1 }, ⟨r.2, []⟩)
  | .evData ext payload =>
    let r := Handler.data ext payload s.chan
    some ({ s with chan := r.1 }, ⟨r.2, []⟩)
  | .evEof =>
    let r := Handler.channel_eof s.chan
    some ({ s with chan := r.1 }, ⟨r.2, []⟩)
  | .evClose =>
    let r := Handler.channel_close s.chan
    some ({ s with chan := r.1 }, ⟨r.2, []⟩)
  | .evExit code =>
    let r := Handler.exit_status code s.chan
    some ({ s with chan := r.1 }, ⟨r.2, []⟩)
  | .opRead bufLen task =>
    match Channel.read bufLen task s.chan with
    | some (st, .wouldBlock) => some ({ s with chan := st }, ⟨[], []⟩)
    | some (st, .ok out) => some ({ s with chan := st }, ⟨[], out⟩)
    | none => none
  | .opExitPoll task =>
    let r := ExitStatusFuture.poll task s.chan
    some ({ s with chan := r.1 }, ⟨[], []⟩)
  | .opOpenPoll id cmd task =>
    match ChannelOpenFuture.poll id cmd task s.conn s.chan with
    | some (conn, st, w, _) => some (⟨conn, st⟩, ⟨w, []⟩)
    | none => none

/-- Run a list of steps, accumulating notifications and read output;
`none` as soon as any step panics. -/
def runTrace : List Step → Sys → Option (Sys × List (Slot × Nat) × List Nat)
  | [], s => some (s, [], [])
  | step :: rest, s =>
    match stepRun s step with
    | none => none
    | some (s1, out) =>
      match runTrace rest s1 with
      | none => none
      | some (s2, ns, rs) => some (s2, out.notifs ++ ns, out.readOut ++ rs)

/-- The initial system state: a freshly registered channel
(`State::default()` inserted by `open_exec`) on a connection whose driver
task slot is empty. -/
def sysInit : Sys :=
  { conn := { task := none, execs := [] }, chan := State.default }

/-- The content of one wake-handle slot. -/
def slotOf (X : Slot) (s : Sys) : Option Nat :=
  match X with
  | .onData => s.chan.read_notify
  | .onExit => s.chan.exit_notify
  | .onOpen => s.chan.open_notify
  | .driver => s.conn.task

/-- The task a step could arm a slot with: consumer polls register
`futures::task::current()`; event handlers never arm a slot. -/
def stepTask : Step → Option Nat
  | .opRead _ task => some task
  | .opExitPoll task => some task
  | .opOpenPoll _ _ task => some task
  | _ => none

/-- Whether a step is a data event or a read (the steps claim C2 ranges
over). -/
def isDataOrRead : Step → Bool
  | .evData _ _ => true
  | .opRead _ _ => true
  | _ => false

/-- Whether a step can touch the inbound buffer (`data`, `data_start`). -/
def touchesInbound : Step → Bool
  | .opRead _ _ => true
  | .evData ext _ => ext.isNone
  | _ => false

/-- The bytes a step puts on the wire towards the reader: the payload of a
non-extended data event. -/
def stepWire : Step → List Nat
  | .evData ext payload => if ext.isNone then payload else []
  | _ => []

/-- Concatenation, in delivery order, of all non-extended data payloads of
a trace. -/
def wireBytes : List Step → List Nat
  | [] => []
  | step :: rest => stepWire step ++ wireBytes rest

/-- The still-unread part of the inbound buffer. -/
def unread (st : State) : List Nat :=
  st.data.drop st.data_start

/-- The bytes a read result handed to the caller (`wouldBlock` hands
none). -/
def readBytes : ReadResult → List Nat
  | .wouldBlock => []
  | .ok out => out

/-- A channel state with three buffered bytes and EOF already signalled. -/
def stC1 : State := { State.default with data := [1, 2, 3], eof := true }

/-- `stC1` after one fully draining read. -/
def stC1' : State := { State.default with eof := true }

/-- The system state after one close event on a fresh channel. -/
def sysC6 : Sys :=
  { conn := { task := none, execs := [] },
    chan := { State.default with eof := true, closed := true } }

/-- The system state after a blocked read by task 9 followed by one data
byte. -/
def sysC8 : Sys :=
  { conn := { task := none, execs := [] },
    chan := { State.default with data := [1] } }

/-! ### Basic lemmas about `Channel.read` -/

/-- Closed form of `Channel.read` when the cursor is in bounds. -/
theorem Channel.read_eq_of_le (bufLen task : Nat) (st : State)
    (h : st.data_start ≤ st.data.length) :
    Channel.read bufLen task st =
      (if min bufLen (st.data.length - st.data_start) = 0 ∧ st.eof = false then
        some ({ (if st.data_start + min bufLen (st.data.length - st.data_start)
                    = st.data.length then
                  { st with data_start := 0, data := [] }
                else
                  { st with data_start :=
                      st.data_start
                        + min bufLen (st.data.length - st.data_start) }) with
                read_notify := some task }, .wouldBlock)
      else
        some ({ (if st.data_start + min bufLen (st.data.length - st.data_start)
                    = st.data.length then
                  { st with data_start := 0, data := [] }
                else
                  { st with data_start :=
                      st.data_start
                        + min bufLen (st.data.length - st.data_start) }) with
                read_notify := none },
              .ok ((st.data.drop st.data_start).take
                    (min bufLen (st.data.length - st.data_start))))) := by
  rw [Channel.read, if_pos h]

/-- C1: `Channel::read` copies exactly
`n = min(buf.len(), data.len() - data_start)` bytes out of the inbound
buffer starting at `data_start`, advances the cursor by `n`, and resets the
cursor to 0 and truncates the buffer exactly when the cursor reaches the
buffer's end; if `n = 0` and `eof` is false it stores the current task in
`on_data` and returns `WouldBlock`; if `n = 0` and `eof` is true it returns
`Ok(0)`.  Consequently, when `N > 0` bytes are buffered at EOF, a read
requesting at least `N` bytes returns exactly those `N` bytes and only the
subsequent read reports end-of-stream. -/
theorem read_copies_and_drains (bufLen task : Nat) (st st' : State)
    (r : ReadResult) (h : st.data_start ≤ st.data.length) (n : Nat)
    (hn : n = min bufLen (st.data.length - st.data_start))
    (hr : Channel.read bufLen task st = some (st', r)) :
    ((0 < n ∨ st.eof = true) →
       r = .ok ((st.data.drop st.data_start).take n)) ∧
    ((n = 0 ∧ st.eof = false) →
       r = .wouldBlock ∧ st'.read_notify = some task) ∧
    ((n = 0 ∧ st.eof = true) → r = .ok []) ∧
    st'.data_start
      = (if st.data_start + n = st.data.length then 0
         else st.data_start + n) ∧
    st'.data
      = (if st.data_start + n = st.data.length then [] else st.data) ∧
    (st.eof = true → 0 < st.data.length - st.data_start →
       st.data.length - st.data_start ≤ bufLen →
       r = .ok (unread st) ∧
       (unread st).length = st.data.length - st.data_start ∧
       ∀ bufLen2 task2,
         Channel.read bufLen2 task2 st' = some (st', .ok [])) := by
  subst hn
  rw [Channel.read_eq_of_le bufLen task st h] at hr
  by_cases hbl : min bufLen (st.data.length - st.data_start) = 0
      ∧ st.eof = false
  · rw [if_pos hbl] at hr
    obtain ⟨hn0, heof⟩ := hbl
    by_cases hdr : st.data_start + min bufLen (st.data.length - st.data_start)
        = st.data.length
    · rw [if_pos hdr] at hr
      injection hr with hr
      injection hr with hst hrr
      subst hst; subst hrr
      refine ⟨?_, fun _ => ⟨rfl, rfl⟩, ?_, ?_, ?_, ?_⟩
      · rintro (hlt | he)
        · omega
        · rw [heof] at he; cases he
      · rintro ⟨_, he⟩; rw [heof] at he; cases he
      · simp [if_pos hdr]
      · simp [if_pos hdr]
      · intro he; rw [heof] at he; cases he
    · rw [if_neg hdr] at hr
      injection hr with hr
      injection hr with hst hrr
      subst hst; subst hrr
      refine ⟨?_, fun _ => ⟨rfl, rfl⟩, ?_, ?_, ?_, ?_⟩
      · rintro (hlt | he)
        · omega
        · rw [heof] at he; cases he
      · rintro ⟨_, he⟩; rw [heof] at he; cases he
      · simp [if_neg hdr]
      · simp [if_neg hdr]
      · intro he; rw [heof] at he; cases he
  · rw [if_neg hbl] at hr
    by_cases hdr : st.data_start + min bufLen (st.data.length - st.data_start)
        = st.data.length
    · rw [if_pos hdr] at hr
      injection hr with hr
      injection hr with hst hrr
      subst hst; subst hrr
      refine ⟨fun _ => rfl, ?_, ?_, ?_, ?_, ?_⟩
      · intro hx; exact absurd hx hbl
      · rintro ⟨hn0, _⟩
        simp [hn0]
      · simp [if_pos hdr]
      · simp [if_pos hdr]
      · intro heof hpos hle
        have hmin : min bufLen (st.data.length - st.data_start)
            = st.data.length - st.data_start := by omega
        refine ⟨?_, ?_, ?_⟩
        · rw [hmin]
          have : (st.data.drop st.data_start).take
                (st.data.length - st.data_start) = unread st := by
            apply List.take_of_length_le
            simp [unread, List.length_drop]
          rw [this, unread]
        · simp [unread, List.length_drop]
        · intro bufLen2 task2
          rw [Channel.read_eq_of_le]
          · simp [heof]
          · simp
    · rw [if_neg hdr] at hr
      injection hr with hr
      injection hr with hst hrr
      subst hst; subst hrr
      refine ⟨fun _ => rfl, ?_, ?_, ?_, ?_, ?_⟩
      · intro hx; exact absurd hx hbl
      · rintro ⟨hn0, _⟩
        simp [hn0]
      · simp [if_neg hdr]
      · simp [if_neg hdr]
      · intro heof hpos hle
        exfalso
        apply hdr
        omega

/-- Witness for C1: a concrete fully-draining read at EOF. -/
theorem read_copies_and_drains_w :
    ReadResult.ok [1, 2, 3]
      = .ok ((stC1.data.drop stC1.data_start).take 3) :=
  (read_copies_and_drains 5 9 stC1 stC1' (.ok [1, 2, 3]) (by decide) 3
    (by decide) (by decide)).1 (Or.inl (by decide))

/-- C4: `ExitStatusFuture::poll` resolves `Ready(code)` when `exit_status`
is set; otherwise fails with "no exit status will ever arrive" when
`closed`; otherwise arms `on_exit` with the current task and returns
`NotReady`; when both `exit_status` and `closed` are set, the exit code
takes precedence. -/
theorem exit_status_poll_spec (task : Nat) (st : State) :
    (∀ code, st.exit_status = some code →
       ExitStatusFuture.poll task st
         = ({ st with exit_notify := none }, .ready code)) ∧
    (st.exit_status = none → st.closed = true →
       ExitStatusFuture.poll task st
         = ({ st with exit_notify := none }, .noStatus)) ∧
    (st.exit_status = none → st.closed = false →
       ExitStatusFuture.poll task st
         = ({ st with exit_notify := some task }, .notReady)) ∧
    (∀ code, st.exit_status = some code → st.closed = true →
       (ExitStatusFuture.poll task st).2 = .ready code) := by
  refine ⟨?_, ?_, ?_, ?_⟩
  · intro code hc
    rw [ExitStatusFuture.poll, hc]
  · intro hc hcl
    rw [ExitStatusFuture.poll, hc]
    simp [hcl]
  · intro hc hcl
    rw [ExitStatusFuture.poll, hc]
    simp [hcl]
  · intro code hc _
    rw [ExitStatusFuture.poll, hc]

/-- Witness for C4: a closed channel with a recorded exit status resolves
to the exit code. -/
theorem exit_status_poll_spec_w :
    (ExitStatusFuture.poll 4
        { State.default with exit_status := some 7, closed := true }).2
      = .ready 7 :=
  (exit_status_poll_spec 4
    { State.default with exit_status := some 7, closed := true }).2.2.2 7
    rfl rfl

/-- C3: after its forcing step, `ChannelOpenFuture::poll` with
`open_state = Some(Ok(()))` issues `exec(id, true, cmd)`, takes and wakes
the driver's stored task, and resolves `Ready` with a channel handle for
`id`; with `open_state = Some(Err(reason))` it resolves to an error
surfacing the reason; with `open_state = None` it arms `on_open` with the
current task and returns `NotReady`. -/
theorem channel_open_poll_spec (id : Nat) (cmd : String) (task : Nat)
    (conn : Connection) (st : State) :
    (∀ t, st.open_state = some .ok → conn.task = some t →
       ChannelOpenFuture.poll id cmd task conn st
         = some ({ task := none, execs := conn.execs ++ [(id, true, cmd)] },
                 { st with open_notify := none, open_state := none },
                 [(.driver, t)], .opened id)) ∧
    (∀ e, st.open_state = some (.failed e) →
       ChannelOpenFuture.poll id cmd task conn st
         = some (conn, { st with open_notify := none, open_state := none },
                 [], .failed e)) ∧
    (st.open_state = none →
       ChannelOpenFuture.poll id cmd task conn st
         = some (conn,
                 { st with open_notify := some task, open_state := none },
                 [], .notReady)) := by
  refine ⟨?_, ?_, ?_⟩
  · intro t ho ht
    rw [ChannelOpenFuture.poll, ho, ht]
  · intro e ho
    rw [ChannelOpenFuture.poll, ho]
  · intro ho
    rw [ChannelOpenFuture.poll, ho]

/-- Witness for C3: a confirmed open with a stored driver task resolves to
an opened channel, issuing the exec request and waking the driver. -/
theorem channel_open_poll_spec_w :
    ChannelOpenFuture.poll 2 "ls -la" 6 { task := some 3, execs := [] }
        { State.default with open_state := some .ok }
      = some ({ task := none, execs := [(2, true, "ls -la")] },
              { State.default with open_state := none },
              [(.driver, 3)], .opened 2) :=
  (channel_open_poll_spec 2 "ls -la" 6 { task := some 3, execs := [] }
    { State.default with open_state := some .ok }).1 3 rfl rfl

/-- C9: when `open_state = Some(Ok(()))` but the connection's driver task
slot is empty, `ChannelOpenFuture::poll` aborts with a panic
(`s.task.take().unwrap()`), modelled as `none`: the success path requires
that the `ConnectionDriver` has registered a task handle. -/
theorem open_poll_panics_without_driver_task (id : Nat) (cmd : String)
    (task : Nat) (conn : Connection) (st : State)
    (hok : st.open_state = some .ok) (ht : conn.task = none) :
    ChannelOpenFuture.poll id cmd task conn st = none := by
  rw [ChannelOpenFuture.poll, hok, ht]

/-- Witness for C9: the panic at a concrete input. -/
theorem open_poll_panics_without_driver_task_w :
    ChannelOpenFuture.poll 0 "ls" 1 { task := none, execs := [] }
        { State.default with open_state := some .ok }
      = none :=
  open_poll_panics_without_driver_task 0 "ls" 1
    { task := none, execs := [] }
    { State.default with open_state := some .ok } rfl rfl

/-- C5: when the engine's `poll` returns a terminal error `e`, the driver
stores `e` into `errored_with` and terminates with `Err(())`, waking no
channel consumer; `last_error()` then returns `Some(e)` and clears the
slot, so a second call returns `None`. -/
theorem fatal_error_last_error (task e : Nat) (conn : Connection)
    (sess : SessionInner) :
    ∃ conn' sess',
      SharableConnection.poll task (.err e) conn sess
        = (conn', sess', .errored, []) ∧
      sess'.errored_with = some e ∧
      (Session.last_error sess').2 = some e ∧
      (Session.last_error (Session.last_error sess').1).2 = none := by
  exact ⟨{ conn with task := some task }, { errored_with := some e },
    rfl, rfl, rfl, rfl⟩

/-- C7: delivering close twice neither panics nor wakes anyone a second
time and leaves the state of one close: the first close sets `eof` and
`closed`, clears `on_data` and `on_exit`, and notifies exactly the waiters
that were armed; the second close finds both flags true and both slots
empty and is a no-op. -/
theorem close_idempotent (st : State) :
    (Handler.channel_close (Handler.channel_close st).1).1
        = (Handler.channel_close st).1 ∧
    (Handler.channel_close (Handler.channel_close st).1).2 = [] ∧
    (Handler.channel_close st).1.eof = true ∧
    (Handler.channel_close st).1.closed = true ∧
    (Handler.channel_close st).1.read_notify = none ∧
    (Handler.channel_close st).1.exit_notify = none ∧
    (∀ t, st.read_notify = some t →
       (Slot.onData, t) ∈ (Handler.channel_close st).2) ∧
    (∀ t, st.exit_notify = some t →
       (Slot.onExit, t) ∈ (Handler.channel_close st).2) := by
  refine ⟨rfl, rfl, rfl, rfl, rfl, rfl, ?_, ?_⟩
  · intro t ht
    simp [Handler.channel_close, optWake, ht]
  · intro t ht
    simp [Handler.channel_close, optWake, ht]

/-- Witness for C7: the first close notifies the armed `on_data` and
`on_exit` waiters. -/
theorem close_idempotent_w :
    (Slot.onData, 5)
        ∈ (Handler.channel_close
            { State.default with read_notify := some 5,
                                 exit_notify := some 8 }).2 ∧
    (Slot.onExit, 8)
        ∈ (Handler.channel_close
            { State.default with read_notify := some 5,
                                 exit_notify := some 8 }).2 :=
  ⟨(close_idempotent
      { State.default with read_notify := some 5,
                           exit_notify := some 8 }).2.2.2.2.2.2.1 5 rfl,
   (close_idempotent
      { State.default with read_notify := some 5,
                           exit_notify := some 8 }).2.2.2.2.2.2.2 8 rfl⟩

/-! ### Per-step helper lemmas for the trace theorems -/

/-- `Channel::read` leaves every field other than `data`, `data_start` and
`read_notify` unchanged. -/
theorem Channel.read_untouched (bufLen task : Nat) (st st' : State)
    (r : ReadResult) (h : Channel.read bufLen task st = some (st', r)) :
    st'.closed = st.closed ∧ st'.eof = st.eof
      ∧ st'.exit_notify = st.exit_notify
      ∧ st'.open_notify = st.open_notify
      ∧ st'.exit_status = st.exit_status
      ∧ st'.open_state = st.open_state := by
  by_cases hle : st.data_start ≤ st.data.length
  · rw [Channel.read_eq_of_le _ _ _ hle] at h
    split at h <;> split at h <;>
      (injection h with h1; injection h1 with ha hb; subst ha; subst hb;
       exact ⟨rfl, rfl, rfl, rfl, rfl, rfl⟩)
  · rw [Channel.read, if_neg hle] at h
    cases h

/-- `Channel::read` sets `read_notify` to the current task exactly when it
would block, to `none` otherwise. -/
theorem Channel.read_notify_eq (bufLen task : Nat) (st st' : State)
    (r : ReadResult) (h : Channel.read bufLen task st = some (st', r)) :
    (r = .wouldBlock ∧ st'.read_notify = some task)
      ∨ (r ≠ .wouldBlock ∧ st'.read_notify = none) := by
  by_cases hle : st.data_start ≤ st.data.length
  · rw [Channel.read_eq_of_le _ _ _ hle] at h
    split at h <;> [skip; skip] <;> split at h <;>
      (injection h with h1; injection h1 with ha hb; subst ha; subst hb;
       simp)
  · rw [Channel.read, if_neg hle] at h
    cases h

/-- A successful `Channel::read` re-establishes `data_start ≤ data.length`. -/
theorem Channel.read_inv (bufLen task : Nat) (st st' : State)
    (r : ReadResult) (h : Channel.read bufLen task st = some (st', r)) :
    st'.data_start ≤ st'.data.length := by
  by_cases hle : st.data_start ≤ st.data.length
  · rw [Channel.read_eq_of_le _ _ _ hle] at h
    split at h <;> rename_i hdr <;> split at h <;> rename_i hds <;>
      (injection h with h1; injection h1 with ha hb; subst ha; subst hb) <;>
      simp_all <;> omega
  · rw [Channel.read, if_neg hle] at h
    cases h

/-- Membership in the notification list of one fired slot. -/
theorem mem_optWake (X Y : Slot) (k : Nat) (o : Option Nat) :
    (X, k) ∈ optWake Y o ↔ X = Y ∧ o = some k := by
  cases o with
  | none => simp [optWake]
  | some t => simp [optWake, eq_comm]

/-- One step of the trace semantics: `closed`/`eof` monotonicity, the
inbound-buffer discipline, and the wake-slot discipline (a fired slot held
exactly the fired task and is left empty; a slot can only come to hold a
task through that task's own consumer poll). -/
theorem stepRun_spec (step : Step) (s t : Sys) (out : StepOut)
    (h : stepRun s step = some (t, out)) :
    (s.chan.closed = true → t.chan.closed = true) ∧
    (s.chan.eof = true → t.chan.eof = true) ∧
    ((s.chan.closed = true → s.chan.eof = true) →
       t.chan.closed = true → t.chan.eof = true) ∧
    (s.chan.data_start ≤ s.chan.data.length →
       t.chan.data_start ≤ t.chan.data.length) ∧
    (touchesInbound step = false →
       t.chan.data = s.chan.data ∧ t.chan.data_start = s.chan.data_start) ∧
    (∀ X k, (X, k) ∈ out.notifs → slotOf X s = some k ∧ slotOf X t = none) ∧
    (∀ X k, slotOf X t = some k →
       slotOf X s = some k ∨ stepTask step = some k) := by
  cases step with
  | evOpenConfirm =>
    simp [stepRun, Handler.channel_open_confirmation] at h
    obtain ⟨ht, hout⟩ := h
    subst ht; subst hout
    refine ⟨id, id, fun hc => hc, id, fun _ => ⟨rfl, rfl⟩, ?_, ?_⟩
    · intro X k hm
      rw [mem_optWake] at hm
      obtain ⟨hX, ho⟩ := hm
      subst hX
      exact ⟨ho, rfl⟩
    · intro X k hsl
      cases X with
      | onOpen => exact absurd hsl (by simp [slotOf])
      | onData => exact Or.inl hsl
      | onExit => exact Or.inl hsl
      | driver => exact Or.inl hsl
  | evOpenFail reason =>
    simp [stepRun, Handler.channel_open_failure] at h
    obtain ⟨ht, hout⟩ := h
    subst ht; subst hout
    refine ⟨id, id, fun hc => hc, id, fun _ => ⟨rfl, rfl⟩, ?_, ?_⟩
    · intro X k hm
      rw [mem_optWake] at hm
      obtain ⟨hX, ho⟩ := hm
      subst hX
      exact ⟨ho, rfl⟩
    · intro X k hsl
      cases X with
      | onOpen => exact absurd hsl (by simp [slotOf])
      | onData => exact Or.inl hsl
      | onExit => exact Or.inl hsl
      | driver => exact Or.inl hsl
  | evData ext payload =>
    cases ext with
    | none =>
      simp [stepRun, Handler.data] at h
      obtain ⟨ht, hout⟩ := h
      subst ht; subst hout
      refine ⟨id, id, fun hc => hc, ?_, ?_, ?_, ?_⟩
      · intro hle
        simp only [List.length_append]
        omega
      · intro hf
        exact absurd hf (by simp [touchesInbound])
      · intro X k hm
        rw [mem_optWake] at hm
        obtain ⟨hX, ho⟩ := hm
        subst hX
        exact ⟨ho, rfl⟩
      · intro X k hsl
        cases X with
        | onData => exact absurd hsl (by simp [slotOf])
        | onOpen => exact Or.inl hsl
        | onExit => exact Or.inl hsl
        | driver => exact Or.inl hsl
    | some v =>
      simp [stepRun, Handler.data] at h
      obtain ⟨ht, hout⟩ := h
      subst ht; subst hout
      refine ⟨id, id, fun hc => hc, id, fun _ => ⟨rfl, rfl⟩, ?_, ?_⟩
      · intro X k hm
        exact absurd hm (by simp)
      · intro X k hsl
        exact Or.inl hsl
  | evEof =>
    simp [stepRun, Handler.channel_eof] at h
    obtain ⟨ht, hout⟩ := h
    subst ht; subst hout
    refine ⟨id, fun _ => rfl, fun _ _ => rfl, id, fun _ => ⟨rfl, rfl⟩,
      ?_, ?_⟩
    · intro X k hm
      rw [mem_optWake] at hm
      obtain ⟨hX, ho⟩ := hm
      subst hX
      exact ⟨ho, rfl⟩
    · intro X k hsl
      cases X with
      | onData => exact absurd hsl (by simp [slotOf])
      | onOpen => exact Or.inl hsl
      | onExit => exact Or.inl hsl
      | driver => exact Or.inl hsl
  | evClose =>
    simp [stepRun, Handler.channel_close] at h
    obtain ⟨ht, hout⟩ := h
    subst ht; subst hout
    refine ⟨fun _ => rfl, fun _ => rfl, fun _ _ => rfl, id,
      fun _ => ⟨rfl, rfl⟩, ?_, ?_⟩
    · intro X k hm
      rw [List.mem_append] at hm
      rcases hm with hm | hm <;>
        (rw [mem_optWake] at hm; obtain ⟨hX, ho⟩ := hm; subst hX;
         exact ⟨ho, rfl⟩)
    · intro X k hsl
      cases X with
      | onData => exact absurd hsl (by simp [slotOf])
      | onExit => exact absurd hsl (by simp [slotOf])
      | onOpen => exact Or.inl hsl
      | driver => exact Or.inl hsl
  | evExit code =>
    simp [stepRun, Handler.exit_status] at h
    obtain ⟨ht, hout⟩ := h
    subst ht; subst hout
    refine ⟨id, id, fun hc => hc, id, fun _ => ⟨rfl, rfl⟩, ?_, ?_⟩
    · intro X k hm
      rw [mem_optWake] at hm
      obtain ⟨hX, ho⟩ := hm
      subst hX
      exact ⟨ho, rfl⟩
    · intro X k hsl
      cases X with
      | onExit => exact absurd hsl (by simp [slotOf])
      | onData => exact Or.inl hsl
      | onOpen => exact Or.inl hsl
      | driver => exact Or.inl hsl
  | opRead bufLen task =>
    rcases hr : Channel.read bufLen task s.chan with _ | ⟨st1, r1⟩
    · simp [stepRun, hr] at h
    · have huntouched :=
        Channel.read_untouched bufLen task s.chan st1 r1 hr
      have hinv := Channel.read_inv bufLen task s.chan st1 r1 hr
      have hnotify := Channel.read_notify_eq bufLen task s.chan st1 r1 hr
      obtain ⟨hcl, heof, hexn, hopn, _, _⟩ := huntouched
      cases r1 with
      | wouldBlock =>
        simp [stepRun, hr] at h
        obtain ⟨ht, hout⟩ := h
        subst ht; subst hout
        refine ⟨?_, ?_, ?_, fun _ => hinv, ?_, ?_, ?_⟩
        · intro hc
          exact show st1.closed = true from hcl.trans hc
        · intro he
          exact show st1.eof = true from heof.trans he
        · intro hce hc
          have hc' : st1.closed = true := hc
          exact show st1.eof = true from
            heof.trans (hce (hcl.symm.trans hc'))
        · intro hf
          exact absurd hf (by simp [touchesInbound])
        · intro X k hm
          exact absurd hm (by simp)
        · intro X k hsl
          cases X with
          | onData =>
            rcases hnotify with ⟨_, hn⟩ | ⟨hne, _⟩
            · have hsl' : st1.read_notify = some k := hsl
              rw [hn] at hsl'
              injection hsl' with hk
              subst hk
              exact Or.inr rfl
            · exact absurd rfl hne
          | onExit =>
            have hsl' : st1.exit_notify = some k := hsl
            rw [hexn] at hsl'
            exact Or.inl hsl'
          | onOpen =>
            have hsl' : st1.open_notify = some k := hsl
            rw [hopn] at hsl'
            exact Or.inl hsl'
          | driver => exact Or.inl hsl
      | ok outBytes =>
        simp [stepRun, hr] at h
        obtain ⟨ht, hout⟩ := h
        subst ht; subst hout
        refine ⟨?_, ?_, ?_, fun _ => hinv, ?_, ?_, ?_⟩
        · intro hc
          exact show st1.closed = true from hcl.trans hc
        · intro he
          exact show st1.eof = true from heof.trans he
        · intro hce hc
          have hc' : st1.closed = true := hc
          exact show st1.eof = true from
            heof.trans (hce (hcl.symm.trans hc'))
        · intro hf
          exact absurd hf (by simp [touchesInbound])
        · intro X k hm
          exact absurd hm (by simp)
        · intro X k hsl
          cases X with
          | onData =>
            rcases hnotify with ⟨hw, _⟩ | ⟨_, hn⟩
            · exact absurd hw (by simp)
            · have hsl' : st1.read_notify = some k := hsl
              rw [hn] at hsl'
              cases hsl'
          | onExit =>
            have hsl' : st1.exit_notify = some k := hsl
            rw [hexn] at hsl'
            exact Or.inl hsl'
          | onOpen =>
            have hsl' : st1.open_notify = some k := hsl
            rw [hopn] at hsl'
            exact Or.inl hsl'
          | driver => exact Or.inl hsl
  | opExitPoll task =>
    rcases hes : s.chan.exit_status with _ | code
    · cases hcb : s.chan.closed with
      | true =>
        simp [stepRun, ExitStatusFuture.poll, hes, hcb] at h
        obtain ⟨ht, hout⟩ := h
        subst ht; subst hout
        refine ⟨id, id, fun hc => hc, id, fun _ => ⟨rfl, rfl⟩, ?_, ?_⟩
        · intro X k hm
          exact absurd hm (by simp)
        · intro X k hsl
          cases X with
          | onExit => exact absurd hsl (by simp [slotOf])
          | onData => exact Or.inl hsl
          | onOpen => exact Or.inl hsl
          | driver => exact Or.inl hsl
      | false =>
        simp [stepRun, ExitStatusFuture.poll, hes, hcb] at h
        obtain ⟨ht, hout⟩ := h
        subst ht; subst hout
        refine ⟨id, id, fun hc => hc, id, fun _ => ⟨rfl, rfl⟩, ?_, ?_⟩
        · intro X k hm
          exact absurd hm (by simp)
        · intro X k hsl
          cases X with
          | onExit =>
            have hsl' : some task = some k := hsl
            injection hsl' with hk
            subst hk
            exact Or.inr rfl
          | onData => exact Or.inl hsl
          | onOpen => exact Or.inl hsl
          | driver => exact Or.inl hsl
    · simp [stepRun, ExitStatusFuture.poll, hes] at h
      obtain ⟨ht, hout⟩ := h
      subst ht; subst hout
      refine ⟨id, id, fun hc => hc, id, fun _ => ⟨rfl, rfl⟩, ?_, ?_⟩
      · intro X k hm
        exact absurd hm (by simp)
      · intro X k hsl
        cases X with
        | onExit => exact absurd hsl (by simp [slotOf])
        | onData => exact Or.inl hsl
        | onOpen => exact Or.inl hsl
        | driver => exact Or.inl hsl
  | opOpenPoll cid cmd task =>
    rcases hos : s.chan.open_state with _ | res
    · simp [stepRun, ChannelOpenFuture.poll, hos] at h
      obtain ⟨ht, hout⟩ := h
      subst ht; subst hout
      refine ⟨id, id, fun hc => hc, id, fun _ => ⟨rfl, rfl⟩, ?_, ?_⟩
      · intro X k hm
        exact absurd hm (by simp)
      · intro X k hsl
        cases X with
        | onOpen =>
          have hsl' : some task = some k := hsl
          injection hsl' with hk
          subst hk
          exact Or.inr rfl
        | onData => exact Or.inl hsl
        | onExit => exact Or.inl hsl
        | driver => exact Or.inl hsl
    · cases res with
      | ok =>
        rcases hct : s.conn.task with _ | dt
        · simp [stepRun, ChannelOpenFuture.poll, hos, hct] at h
        · simp [stepRun, ChannelOpenFuture.poll, hos, hct] at h
          obtain ⟨ht, hout⟩ := h
          subst ht; subst hout
          refine ⟨id, id, fun hc => hc, id, fun _ => ⟨rfl, rfl⟩, ?_, ?_⟩
          · intro X k hm
            simp at hm
            obtain ⟨hX, hk⟩ := hm
            subst hX; subst hk
            exact ⟨hct, rfl⟩
          · intro X k hsl
            cases X with
            | onOpen => exact absurd hsl (by simp [slotOf])
            | driver => exact absurd hsl (by simp [slotOf])
            | onData => exact Or.inl hsl
            | onExit => exact Or.inl hsl
      | failed reason =>
        simp [stepRun, ChannelOpenFuture.poll, hos] at h
        obtain ⟨ht, hout⟩ := h
        subst ht; subst hout
        refine ⟨id, id, fun hc => hc, id, fun _ => ⟨rfl, rfl⟩, ?_, ?_⟩
        · intro X k hm
          exact absurd hm (by simp)
        · intro X k hsl
          cases X with
          | onOpen => exact absurd hsl (by simp [slotOf])
          | onData => exact Or.inl hsl
          | onExit => exact Or.inl hsl
          | driver => exact Or.inl hsl

/-- Inversion of `runTrace` on a non-empty trace. -/
theorem runTrace_cons (step : Step) (rest : List Step) (s : Sys)
    (res : Sys × List (Slot × Nat) × List Nat) :
    runTrace (step :: rest) s = some res ↔
      ∃ s1 out s2 ns rs, stepRun s step = some (s1, out) ∧
        runTrace rest s1 = some (s2, ns, rs) ∧
        res = (s2, out.notifs ++ ns, out.readOut ++ rs) := by
  constructor
  · intro h
    rcases h1 : stepRun s step with _ | ⟨s1, out⟩ <;>
      simp only [runTrace, h1] at h
    · exact Option.noConfusion h
    · rcases h2 : runTrace rest s1 with _ | ⟨s2, ns, rs⟩ <;>
        simp only [h2] at h
      · exact Option.noConfusion h
      · injection h with h3
        exact ⟨s1, out, s2, ns, rs, rfl, h2, h3.symm⟩
  · rintro ⟨s1, out, s2, ns, rs, h1, h2, h3⟩
    simp only [runTrace, h1, h2, h3]

/-- Along any run, `closed → eof` is preserved and both flags are
monotone. -/
theorem runTrace_closed_eof (steps : List Step) (s s' : Sys)
    (ns : List (Slot × Nat)) (rs : List Nat)
    (h : runTrace steps s = some (s', ns, rs))
    (hinv : s.chan.closed = true → s.chan.eof = true) :
    (s'.chan.closed = true → s'.chan.eof = true) ∧
    (s.chan.closed = true → s'.chan.closed = true) ∧
    (s.chan.eof = true → s'.chan.eof = true) := by
  induction steps generalizing s s' ns rs with
  | nil =>
    rw [runTrace] at h
    injection h with h1
    injection h1 with ha hb
    subst ha
    exact ⟨hinv, id, id⟩
  | cons step rest ih =>
    rw [runTrace_cons] at h
    obtain ⟨s1, out, s2, ns2, rs2, h1, h2, h3⟩ := h
    have hs : s' = s2 := congrArg Prod.fst h3
    subst hs
    obtain ⟨hc1, he1, hce1, _, _, _, _⟩ := stepRun_spec step s s1 out h1
    obtain ⟨ih1, ih2, ih3⟩ := ih s1 s' ns2 rs2 h2 (hce1 hinv)
    exact ⟨ih1, fun hc => ih2 (hc1 hc), fun he => ih3 (he1 he)⟩

/-- A task that is not in slot `X` and is never re-armed along a trace is
never notified from slot `X`. -/
theorem no_stale_wake_aux (steps : List Step) (s s' : Sys)
    (ns : List (Slot × Nat)) (rs : List Nat) (X : Slot) (k : Nat)
    (h : runTrace steps s = some (s', ns, rs))
    (h0 : slotOf X s ≠ some k)
    (harm : ∀ stp ∈ steps, stepTask stp ≠ some k) :
    (X, k) ∉ ns ∧ slotOf X s' ≠ some k := by
  induction steps generalizing s s' ns rs with
  | nil =>
    rw [runTrace] at h
    injection h with h1
    injection h1 with ha hb
    injection hb with hb1 hb2
    subst ha; subst hb1
    exact ⟨List.not_mem_nil _, h0⟩
  | cons step rest ih =>
    rw [runTrace_cons] at h
    obtain ⟨s1, out, s2, ns2, rs2, h1, h2, h3⟩ := h
    have hs : s' = s2 := congrArg Prod.fst h3
    have hns : ns = out.notifs ++ ns2 := congrArg (fun p => p.2.1) h3
    subst hs
    obtain ⟨_, _, _, _, _, hfire, harm1⟩ := stepRun_spec step s s1 out h1
    have h0' : slotOf X s1 ≠ some k := by
      intro hq
      rcases harm1 X k hq with hl | hr
      · exact h0 hl
      · exact harm step (List.mem_cons_self step rest) hr
    have hrest := ih s1 s' ns2 rs2 h2 h0'
      (fun stp hm => harm stp (List.mem_cons_of_mem step hm))
    refine ⟨?_, hrest.2⟩
    rw [hns]
    intro hmem
    rw [List.mem_append] at hmem
    rcases hmem with hm | hm
    · exact h0 (hfire X k hm).1
    · exact hrest.1 hm

/-- What a read hands to the caller plus what remains unread is exactly
what was unread before the read. -/
theorem Channel.read_unread (bufLen task : Nat) (st st' : State)
    (r : ReadResult) (h : Channel.read bufLen task st = some (st', r)) :
    readBytes r ++ unread st' = unread st := by
  by_cases hle : st.data_start ≤ st.data.length
  · rw [Channel.read_eq_of_le _ _ _ hle] at h
    split at h <;> rename_i hbl <;> split at h <;> rename_i hdr <;>
      (injection h with h1; injection h1 with ha hb; subst ha; subst hb)
    · have hds : st.data.length ≤ st.data_start := by omega
      simp [readBytes, unread, List.drop_eq_nil_of_le hds]
    · obtain ⟨h0, _⟩ := hbl
      simp [readBytes, unread, h0]
    · show (st.data.drop st.data_start).take
          (min bufLen (st.data.length - st.data_start))
          ++ ([] : List Nat).drop 0 = st.data.drop st.data_start
      rw [List.drop_nil, List.append_nil]
      apply List.take_of_length_le
      rw [List.length_drop]
      omega
    · show (st.data.drop st.data_start).take
          (min bufLen (st.data.length - st.data_start))
          ++ st.data.drop (st.data_start
              + min bufLen (st.data.length - st.data_start))
          = st.data.drop st.data_start
      rw [← List.drop_drop]
      exact List.take_append_drop _ _
  · rw [Channel.read, if_neg hle] at h
    cases h

/-- `Channel.read` succeeds on any state whose cursor is in bounds. -/
theorem Channel.read_total (bufLen task : Nat) (st : State)
    (hle : st.data_start ≤ st.data.length) :
    ∃ st' r, Channel.read bufLen task st = some (st', r) := by
  rw [Channel.read_eq_of_le _ _ _ hle]
  split <;> exact ⟨_, _, rfl⟩

/-- Any interleaving of data events and reads runs without panicking,
keeps the cursor in bounds, and hands out exactly a leading portion of
the wire bytes: read output plus the final unread bytes equals the initial
unread bytes plus the non-extended payloads in delivery order. -/
theorem runTrace_dataRead (steps : List Step) (s : Sys)
    (hsteps : ∀ stp ∈ steps, isDataOrRead stp = true)
    (hinv : s.chan.data_start ≤ s.chan.data.length) :
    ∃ s' ns rs, runTrace steps s = some (s', ns, rs) ∧
      s'.chan.data_start ≤ s'.chan.data.length ∧
      rs ++ unread s'.chan = unread s.chan ++ wireBytes steps := by
  induction steps generalizing s with
  | nil => exact ⟨s, [], [], rfl, hinv, by simp [wireBytes]⟩
  | cons step rest ih =>
    have hstep := hsteps step (List.mem_cons_self step rest)
    have hrest := fun stp hm => hsteps stp (List.mem_cons_of_mem step hm)
    cases step with
    | evData ext payload =>
      cases ext with
      | none =>
        have hinv1 : s.chan.data_start ≤ (s.chan.data ++ payload).length := by
          rw [List.length_append]; omega
        obtain ⟨s', ns, rs, hrun, hinv', heq⟩ :=
          ih ⟨s.conn, (Handler.data none payload s.chan).1⟩ hrest hinv1
        refine ⟨s', optWake .onData s.chan.read_notify ++ ns, [] ++ rs,
          runTrace_cons _ _ _ _ |>.mpr
            ⟨⟨s.conn, (Handler.data none payload s.chan).1⟩,
             ⟨optWake .onData s.chan.read_notify, []⟩, s', ns, rs,
             rfl, hrun, rfl⟩, hinv', ?_⟩
        have hu : unread (Handler.data none payload s.chan).1
            = unread s.chan ++ payload := by
          show (s.chan.data ++ payload).drop s.chan.data_start
            = s.chan.data.drop s.chan.data_start ++ payload
          exact List.drop_append_of_le_length hinv
        rw [List.nil_append, heq, hu, List.append_assoc]
        rfl
      | some v =>
        obtain ⟨s', ns, rs, hrun, hinv', heq⟩ := ih s hrest hinv
        refine ⟨s', [] ++ ns, [] ++ rs,
          runTrace_cons _ _ _ _ |>.mpr
            ⟨s, ⟨[], []⟩, s', ns, rs, rfl, hrun, rfl⟩, hinv', ?_⟩
        rw [List.nil_append, heq]
        rfl
    | opRead bufLen task =>
      obtain ⟨st1, r, hr⟩ := Channel.read_total bufLen task s.chan hinv
      have hinv1 := Channel.read_inv bufLen task s.chan st1 r hr
      have hur := Channel.read_unread bufLen task s.chan st1 r hr
      have h1 : stepRun s (.opRead bufLen task)
          = some (⟨s.conn, st1⟩, ⟨[], readBytes r⟩) := by
        cases r <;> simp [stepRun, hr, readBytes]
      obtain ⟨s', ns, rs, hrun, hinv', heq⟩ := ih ⟨s.conn, st1⟩ hrest hinv1
      refine ⟨s', [] ++ ns, readBytes r ++ rs,
        runTrace_cons _ _ _ _ |>.mpr
          ⟨⟨s.conn, st1⟩, ⟨[], readBytes r⟩, s', ns, rs, h1, hrun, rfl⟩,
        hinv', ?_⟩
      rw [List.append_assoc, heq]
      show readBytes r ++ (unread st1 ++ wireBytes rest)
        = unread s.chan ++ wireBytes (Step.opRead bufLen task :: rest)
      rw [← List.append_assoc, hur]
      rfl
    | evOpenConfirm => simp [isDataOrRead] at hstep
    | evOpenFail reason => simp [isDataOrRead] at hstep
    | evEof => simp [isDataOrRead] at hstep
    | evClose => simp [isDataOrRead] at hstep
    | evExit code => simp [isDataOrRead] at hstep
    | opExitPoll task => simp [isDataOrRead] at hstep
    | opOpenPoll cid cmd task => simp [isDataOrRead] at hstep

/-! ### The remaining claim theorems -/

/-- C2: for every sequence of data events on one channel interleaved
arbitrarily with reads, the concatenation of all byte slices returned by
the reads is an initial segment of the concatenation of the non-extended
payloads in delivery order — no bytes reordered, duplicated, or dropped
across multiple data events (extended-stream data excluded: it is
discarded). -/
theorem reads_follow_wire_order (steps : List Step)
    (hsteps : ∀ stp ∈ steps, isDataOrRead stp = true) :
    ∃ s' ns rs, runTrace steps sysInit = some (s', ns, rs) ∧
      ∃ rest, rs ++ rest = wireBytes steps := by
  obtain ⟨s', ns, rs, hrun, _, heq⟩ :=
    runTrace_dataRead steps sysInit hsteps (by decide)
  refine ⟨s', ns, rs, hrun, unread s'.chan, ?_⟩
  rw [heq]
  rfl

/-- Witness for C2: two data events interleaved with two reads. -/
theorem reads_follow_wire_order_w :
    ∃ s' ns rs,
      runTrace [Step.evData none [1, 2], Step.opRead 1 7,
                Step.evData none [3], Step.opRead 5 7] sysInit
        = some (s', ns, rs) ∧
      ∃ rest, rs ++ rest
        = wireBytes [Step.evData none [1, 2], Step.opRead 1 7,
                     Step.evData none [3], Step.opRead 5 7] :=
  reads_follow_wire_order _ (by decide)

/-- C6 counterexample: the event handlers do not guard on `closed`: a data
event delivered after close still mutates the inbound buffer, refuting
"once closed is true, no subsequent event-handler invocation mutates that
channel's inbound buffer". -/
theorem close_then_data_mutates :
    ((Handler.channel_close State.default).1).closed = true ∧
    (Handler.data none [42]
        (Handler.channel_close State.default).1).1.data
      ≠ ((Handler.channel_close State.default).1).data := by
  decide

/-- C6 (amended): in every reachable state `closed` implies `eof`, and
once `closed` is set both `closed` and `eof` stay true across every
further step; the handlers do not guard on `closed`, so the original
no-further-mutation clause holds only when the engine delivers no further
events for the channel after close (see the counterexample). -/
theorem closed_implies_eof (steps : List Step) (s' : Sys)
    (ns : List (Slot × Nat)) (rs : List Nat)
    (h : runTrace steps sysInit = some (s', ns, rs)) :
    (s'.chan.closed = true → s'.chan.eof = true) ∧
    (∀ steps2 s'' ns2 rs2, runTrace steps2 s' = some (s'', ns2, rs2) →
       s'.chan.closed = true →
       s''.chan.closed = true ∧ s''.chan.eof = true) := by
  have h0 := runTrace_closed_eof steps sysInit s' ns rs h
    (fun hc => absurd hc (by decide))
  refine ⟨h0.1, ?_⟩
  intro steps2 s'' ns2 rs2 h2 hc
  have h1 := runTrace_closed_eof steps2 s' s'' ns2 rs2 h2 h0.1
  exact ⟨h1.2.1 hc, h1.1 (h1.2.1 hc)⟩

/-- Witness for C6: after a close event the reachable state has `eof`. -/
theorem closed_implies_eof_w :
    sysC6.chan.eof = true :=
  (closed_implies_eof [Step.evClose] sysC6 [] [] (by decide)).1 (by decide)

/-- C8: each readiness slot holds at most one wake handle; arming a slot
stores the current task, replacing whatever handle was there; an event
handler that notifies a slot found exactly that task in the slot and
leaves it empty; and a handle that is not in a slot and is never re-armed
along a trace is never notified from that slot. -/
theorem at_most_one_waiter :
    (∀ bufLen task st st', Channel.read bufLen task st
        = some (st', .wouldBlock) → st'.read_notify = some task) ∧
    (∀ task st, (ExitStatusFuture.poll task st).2 = .notReady →
       ((ExitStatusFuture.poll task st).1).exit_notify = some task) ∧
    (∀ cid cmd task conn st conn' st' w,
       ChannelOpenFuture.poll cid cmd task conn st
           = some (conn', st', w, .notReady) →
       st'.open_notify = some task) ∧
    (∀ step s t out X k, stepRun s step = some (t, out) →
       (X, k) ∈ out.notifs → slotOf X s = some k ∧ slotOf X t = none) ∧
    (∀ steps s s' ns rs X k, runTrace steps s = some (s', ns, rs) →
       slotOf X s ≠ some k → (∀ stp ∈ steps, stepTask stp ≠ some k) →
       (X, k) ∉ ns) := by
  refine ⟨?_, ?_, ?_, ?_, ?_⟩
  · intro bufLen task st st' h
    rcases Channel.read_notify_eq bufLen task st st' .wouldBlock h with
      ⟨_, hn⟩ | ⟨hne, _⟩
    · exact hn
    · exact absurd rfl hne
  · intro task st h
    rcases hes : st.exit_status with _ | c
    · by_cases hcb : st.closed = true
      · exfalso
        rw [ExitStatusFuture.poll, hes, if_pos hcb] at h
        exact ExitPoll.noConfusion h
      · rw [ExitStatusFuture.poll, hes, if_neg hcb]
    · exfalso
      rw [ExitStatusFuture.poll, hes] at h
      exact ExitPoll.noConfusion h
  · intro cid cmd task conn st conn' st' w h
    rcases hos : st.open_state with _ | res
    · rw [ChannelOpenFuture.poll, hos] at h
      injection h with h1
      injection h1 with ha hb
      injection hb with hc hd
      subst hc
      rfl
    · cases res with
      | ok =>
        rcases hct : conn.task with _ | dt
        · rw [ChannelOpenFuture.poll, hos, hct] at h
          cases h
        · rw [ChannelOpenFuture.poll, hos, hct] at h
          injection h with h1
          injection h1 with ha hb
          injection hb with hc hd
          injection hd with he hf
          exact absurd hf (by simp)
      | failed reason =>
        rw [ChannelOpenFuture.poll, hos] at h
        injection h with h1
        injection h1 with ha hb
        injection hb with hc hd
        injection hd with he hf
        exact absurd hf (by simp)
  · intro step s t out X k h hm
    exact (stepRun_spec step s t out h).2.2.2.2.2.1 X k hm
  · intro steps s s' ns rs X k h h0 harm
    exact (no_stale_wake_aux steps s s' ns rs X k h h0 harm).1

/-- Witness for C8: a trace that arms `on_data` with task 9 and fires it
never notifies the never-armed task 5. -/
theorem at_most_one_waiter_w :
    (Slot.onData, 5) ∉ [(Slot.onData, 9)] :=
  at_most_one_waiter.2.2.2.2
    [Step.opRead 0 9, Step.evData none [1]] sysInit sysC8
    [(Slot.onData, 9)] [] Slot.onData 5 (by decide) (by decide) (by decide)

/-- C10: every step preserves `data_start ≤ data.length`; under this
invariant the length computation `data.len() - data_start` in
`Channel::read` does not underflow (it agrees with integer subtraction),
the slice `data[data_start .. data_start + n]` stays in bounds, and the
read cannot panic; every step other than a read or a non-extended data
event leaves the inbound buffer and cursor unchanged. -/
theorem inbound_cursor_invariant :
    (∀ step s t out, stepRun s step = some (t, out) →
       s.chan.data_start ≤ s.chan.data.length →
       t.chan.data_start ≤ t.chan.data.length) ∧
    (∀ bufLen task st, st.data_start ≤ st.data.length →
       (Channel.read bufLen task st).isSome ∧
       ((st.data.length : Int) - (st.data_start : Int)
          = ((st.data.length - st.data_start : Nat) : Int)) ∧
       st.data_start + min bufLen (st.data.length - st.data_start)
         ≤ st.data.length) ∧
    (∀ step s t out, stepRun s step = some (t, out) →
       touchesInbound step = false →
       t.chan.data = s.chan.data ∧ t.chan.data_start = s.chan.data_start)
    := by
  refine ⟨?_, ?_, ?_⟩
  · intro step s t out h hle
    exact (stepRun_spec step s t out h).2.2.2.1 hle
  · intro bufLen task st hle
    refine ⟨?_, ?_, ?_⟩
    · obtain ⟨st', r, hr⟩ := Channel.read_total bufLen task st hle
      rw [hr]
      rfl
    · omega
    · omega
  · intro step s t out h hf
    exact (stepRun_spec step s t out h).2.2.2.2.1 hf

/-- Witness for C10: a concrete in-bounds read succeeds. -/
theorem inbound_cursor_invariant_w :
    (Channel.read 2 4 stC1).isSome :=
  (inbound_cursor_invariant.2.1 2 4 stC1 (by decide)).1

end AsyncSsh
